import Mathlib

/-!
Verification of the go-core HTTP client transport pipeline.

This file gives a shallow embedding, in Lean, of the retryable execution
engine (`pkg/transport/httpclient/retryable_client.go`), the circuit-breaker
round tripper (`pkg/transport/breaker_roundtripper.go`), the hook round
tripper (`pkg/transport/target_roundtripper.go`), and the connection-count
tracing of the pooled transport (`pkg/transport/transport_pooled.go` with
`pkg/telemetry/dialtrace/dialer.go`), together with theorems about their
behaviour.

Durations are modelled as integers (nanoseconds), matching Go's
`time.Duration` (an `int64`).  Errors are an inductive universe with a
dedicated constructor for the circuit-open sentinel, so that sentinel
distinctness is expressible.  Effectful Go code is embedded as pure
functions over explicit environments; observable side effects (number of
wrapped-client invocations, body drains, hook invocations, connection-count
updates) are returned as ghost fields of the result.
-/

set_option maxHeartbeats 1000000

namespace GoCore

/-- The universe of error values flowing through the pipeline.  `circuitOpen`
is the sentinel `ErrCircuitOpen`; the other constructors stand for distinct
runtime error values (context errors, transport errors, body-rewind errors,
hook errors, and arbitrary user errors), tagged by a code. -/
inductive Err where
  | circuitOpen : Err
  | ctx (n : Nat) : Err
  | transport (n : Nat) : Err
  | bodyRewind (n : Nat) : Err
  | hookFail (n : Nat) : Err
  | custom (n : Nat) : Err
deriving DecidableEq, Repr

/-- `ErrCircuitOpen` from `breaker_roundtripper.go`: the sentinel raised when
the circuit breaker is open. -/
def ErrCircuitOpen : Err := Err.circuitOpen

/-- The first value of a `Retry-After` response header, as classified by
`retryAfterDuration`: it either parses with `time.Parse(http.TimeFormat, ·)`
as an HTTP date denoting the absolute UTC instant `t` (nanoseconds since the
epoch), or parses with `strconv.Atoi` as the integer `n` (the two parses are
mutually exclusive on any one string), or parses as neither. -/
inductive RetryAfterHeader where
  | httpDate (t : Int) : RetryAfterHeader
  | seconds (n : Int) : RetryAfterHeader
  | unparsable : RetryAfterHeader
deriving DecidableEq, Repr

/-- An `*http.Response` as far as the retry engine observes it: the status
code, the first `Retry-After` header value when that header is present, and
the length of the body stream (used to model draining). -/
structure Response where
  statusCode : Int
  retryAfter : Option RetryAfterHeader
  bodyLen : Nat
deriving DecidableEq, Repr

/-- `ServerErrorsRetryPolicy` (retryable_client.go): the default
`CheckRetryFunc`.  The context argument is represented by the value of
`ctx.Err()` at the time of the call (`none` when the context is live).  The
Go code dereferences `resp` in the status-code branch, so the response is
taken by value here. -/
def ServerErrorsRetryPolicy (ctxErr : Option Err) (resp : Response) (err : Option Err) :
    Bool × Option Err :=
  -- do not retry on context.Canceled or context.DeadlineExceeded
  match ctxErr with
  | some e => (false, some e)
  | none =>
    match err with
    | some e => (true, some e)
    | none =>
      -- retry on 500-range responses except 501, and on invalid codes like 0
      if resp.statusCode = 0 ∨ (500 ≤ resp.statusCode ∧ resp.statusCode ≠ 501) then
        (true, none)
      else
        (false, none)

/-- `RetryableClient.checkRetry`: dispatch to the configured `CheckRetry`
when non-nil, otherwise to `ServerErrorsRetryPolicy`. -/
def checkRetry (custom : Option (Option Err → Response → Option Err → Bool × Option Err))
    (ctxErr : Option Err) (resp : Response) (err : Option Err) : Bool × Option Err :=
  match custom with
  | some f => f ctxErr resp err
  | none => ServerErrorsRetryPolicy ctxErr resp err

/-- `NoRetryPolicy`: never retry, pass the error through. -/
def NoRetryPolicy (_ctxErr : Option Err) (_resp : Response) (err : Option Err) :
    Bool × Option Err :=
  (false, err)

/-- Go `int64` two's-complement wrap-around, as the multiplication
`time.Duration(d) * time.Second` performs on overflow (`time.Duration` is an
`int64`). -/
def wrapInt64 (z : Int) : Int :=
  (z + 2 ^ 63) % 2 ^ 64 - 2 ^ 63

/-- Go `time.Time.Sub`: the exact difference `t - u` (nanoseconds) when it
fits in a `time.Duration` (`int64` nanoseconds), otherwise saturation at the
`minDuration`/`maxDuration` limits. -/
def satSub64 (t u : Int) : Int :=
  if t - u < -(2 ^ 63) then -(2 ^ 63)
  else if 2 ^ 63 - 1 < t - u then 2 ^ 63 - 1
  else t - u

/-- `retryAfterDuration` (retryable_client.go): the duration for a
`Retry-After` header value, given the current UTC time `now` (nanoseconds).
An HTTP date yields `when.Sub(now)`, which saturates at the `Duration`
limits; an integer yields `time.Duration(d) * time.Second`, which wraps in
`int64` on overflow (`strconv.Atoi` itself only yields `int64`-range
values); anything else is an error (`none`). -/
def retryAfterDuration (now : Int) : RetryAfterHeader → Option Int
  | .httpDate t => some (satSub64 t now)
  | .seconds n => some (wrapInt64 (n * 1000000000))
  | .unparsable => none

/-- The fallback used by `RetryableClient.backoffDuration` when no
`Retry-After` header applies: the configured `BackoffStrategy` applied to
the attempt number, or 0 when no strategy is set. -/
def defaultBackoff (strategy : Option (Nat → Int)) (attemptNum : Nat) : Int :=
  match strategy with
  | some f => f attemptNum
  | none => 0

/-- `RetryableClient.backoffDuration`: when the response is non-nil with
status 429 (`StatusTooManyRequests`) or 503 (`StatusServiceUnavailable`) and
carries a `Retry-After` header whose first value parses, that duration is
returned; otherwise the configured strategy (or 0) decides. -/
def backoffDuration (strategy : Option (Nat → Int)) (now : Int) (attemptNum : Nat)
    (resp : Option Response) : Int :=
  match resp with
  | some r =>
    if r.statusCode = 429 ∨ r.statusCode = 503 then
      match r.retryAfter with
      | some v =>
        match retryAfterDuration now v with
        | some sleep => sleep
        | none => defaultBackoff strategy attemptNum
      | none => defaultBackoff strategy attemptNum
    else
      defaultBackoff strategy attemptNum
  | none => defaultBackoff strategy attemptNum

/-- `RetryableClient.drainBody`: reads the response body through
`io.LimitReader(body, 4096)` and closes it; the number of bytes consumed
from a body of length `bodyLen` is `min bodyLen 4096`. -/
def drainBody (bodyLen : Nat) : Nat :=
  min bodyLen 4096

/-- The environment a single `RetryableClient.Do` call runs in.  It fixes,
for every attempt index `i`, the outcome of the wrapped `http.Client.Do`
call, the observable state of the request context, and the behaviour of the
request's `GetBody` factory; plus the client configuration (`CheckRetry`
after dispatch, and `BackoffStrategy`). -/
structure DoEnv where
  /-- Response returned by the wrapped client on attempt `i`. -/
  attemptResp : Nat → Option Response
  /-- Error returned by the wrapped client on attempt `i`. -/
  attemptErr : Nat → Option Err
  /-- `ctx.Err()` as observed by `checkRetry` after attempt `i`. -/
  ctxErrAt : Nat → Option Err
  /-- The client's retry decision (`c.checkRetry`), taking the observed
  context error, the response, and the error. -/
  checkRetry : Option Err → Option Response → Option Err → Bool × Option Err
  /-- `req.GetBody`: `none` when the factory is nil; `some f` when present,
  where `f k` is the error of the `k`-th invocation (`none` = success). -/
  getBody : Option (Nat → Option Err)
  /-- The configured `BackoffStrategy` (nil when `none`). -/
  backoffStrategy : Option (Nat → Int)
  /-- `time.Until(deadline)` at the deadline check after attempt `i`, when
  the request context has a deadline; `none` when it has no deadline. -/
  timeToDeadline : Nat → Option Int
  /-- Whether the context's done channel fires during the backoff select
  after attempt `i` (before the backoff timer does). -/
  doneDuringWait : Nat → Bool
  /-- `ctx.Err()` when the done channel fires during the wait of attempt `i`. -/
  waitCtxErr : Nat → Err
  /-- `time.Now().UTC()` at the backoff computation of attempt `i`
  (nanoseconds), used for `Retry-After` HTTP dates. -/
  nowAt : Nat → Int

/-- Which `return` statement of `RetryableClient.Do` produced the result. -/
inductive DoExit where
  /-- `requestFromInternal` failed (GetBody returned an error). -/
  | getBodyFail : DoExit
  /-- `checkRetry` said not to retry. -/
  | checkStop : DoExit
  /-- no retries left (`RetryMax - i <= 0`). -/
  | exhausted : DoExit
  /-- the remaining context time was `<=` the backoff wait. -/
  | deadlineShort : DoExit
  /-- the context's done channel fired during the backoff wait. -/
  | ctxDone : DoExit
deriving DecidableEq, Repr

/-- The result of a `Do` call, with ghost instrumentation: the number of
wrapped-client invocations, the number of `GetBody` invocations, the list of
`(attempt, bytes)` pairs drained by the engine, whether the body of the
*returned* response was drained-and-closed by the engine, and the exit
path. -/
structure DoResult where
  resp : Option Response
  err : Option Err
  calls : Nat
  getBodyCalls : Nat
  drained : List (Nat × Nat)
  respDrained : Bool
  exit : DoExit
deriving DecidableEq, Repr

/-- One run of the `for` loop of `RetryableClient.Do`, from attempt `i`
onward.  Go checks retry exhaustion with `remainingRetries := RetryMax - i;
if remainingRetries <= 0`; here `remaining` carries that quantity as a
natural number (`(RetryMax - i).toNat`), so the check becomes
`remaining = 0` and the recursion is structural.  `calls`, `gbCalls` and
`drained` are the instrumentation accumulators. -/
def doLoop (env : DoEnv) (remaining i calls gbCalls : Nat)
    (drained : List (Nat × Nat)) : DoResult :=
  -- requestFromInternal: always rewind the request body when GetBody is non-nil
  let gbErr : Option Err :=
    match env.getBody with
    | some f => f gbCalls
    | none => none
  let gbCalls1 : Nat :=
    match env.getBody with
    | some _ => gbCalls + 1
    | none => gbCalls
  match gbErr with
  | some e => ⟨none, some e, calls, gbCalls1, drained, false, .getBodyFail⟩
  | none =>
    -- attempt the request using the underlying httpClient
    let resp := env.attemptResp i
    let err := env.attemptErr i
    let calls1 := calls + 1
    let cr := env.checkRetry (env.ctxErrAt i) resp err
    if cr.1 = false then
      -- not retrying: a non-nil retryErr replaces err
      ⟨resp, (match cr.2 with | some e => some e | none => err), calls1, gbCalls1,
        drained, false, .checkStop⟩
    else
      match remaining with
      | 0 =>
        -- no retries left: return the last response and error
        ⟨resp, err, calls1, gbCalls1, drained, false, .exhausted⟩
      | r + 1 =>
        -- going to retry: consume the response body so the transport can
        -- reuse the connection (only when err == nil and resp != nil)
        let didDrain := err.isNone && resp.isSome
        let drained1 :=
          if didDrain then
            drained ++ [(i, drainBody ((resp.map Response.bodyLen).getD 0))]
          else
            drained
        let wait := backoffDuration env.backoffStrategy (env.nowAt i) i resp
        match env.timeToDeadline i with
        | some t =>
          if t ≤ wait then
            ⟨resp, err, calls1, gbCalls1, drained1, didDrain, .deadlineShort⟩
          else if env.doneDuringWait i then
            ⟨none, some (env.waitCtxErr i), calls1, gbCalls1, drained1, false, .ctxDone⟩
          else
            doLoop env r (i + 1) calls1 gbCalls1 drained1
        | none =>
          if env.doneDuringWait i then
            ⟨none, some (env.waitCtxErr i), calls1, gbCalls1, drained1, false, .ctxDone⟩
          else
            doLoop env r (i + 1) calls1 gbCalls1 drained1

/-- `RetryableClient.Do` with `RetryMax = retryMax` (a Go `int`), run in
environment `env`. -/
def Do (env : DoEnv) (retryMax : Int) : DoResult :=
  doLoop env retryMax.toNat 0 0 0 []

/-- Which of the breaker's callbacks (`success`/`failure`) the round tripper
invoked, if any. -/
inductive BreakerSignal where
  | idle : BreakerSignal
  | success : BreakerSignal
  | failure : BreakerSignal
deriving DecidableEq, Repr

/-- Result of `CircuitBreakerRoundTripper.RoundTrip`, with ghost fields: the
returned pair, whether the wrapped transport (`Base`) was invoked, and which
breaker callback was invoked. -/
structure BreakerRTResult where
  resp : Option Response
  err : Option Err
  baseCalled : Bool
  signal : BreakerSignal
deriving DecidableEq, Repr

/-- `CircuitBreakerRoundTripper.RoundTrip`: `allowed` is what
`CircuitBreaker.Allow(bucket)` returned for this request's bucket, `check`
is the `CheckFunc` classifier, and `base` is the outcome the wrapped
transport would produce if invoked. -/
def CircuitBreakerRoundTrip (allowed : Bool) (check : Option Response → Bool)
    (base : Option Response × Option Err) : BreakerRTResult :=
  if allowed = false then
    -- do not execute the wrapped transport; return the sentinel
    ⟨none, some ErrCircuitOpen, false, .idle⟩
  else
    match base with
    | (res, some e) => ⟨res, some e, true, .failure⟩
    | (res, none) =>
      match check res with
      | true => ⟨res, none, true, .success⟩
      | false => ⟨res, none, true, .failure⟩

/-- `DefaultCircuitBreakerCheckFunc`: success exactly when the status code
is below 500. -/
def DefaultCircuitBreakerCheckFunc (r : Response) : Bool :=
  r.statusCode < 500

/-- Result of `HookRoundTripper.RoundTrip`, with ghost fields: the indices
of the request hooks that executed (in execution order), and the trace of
response-hook invocations, each recorded as
`(hook index, request, response, error)` in invocation order. -/
structure HookRTResult where
  resp : Option Response
  err : Option Err
  baseCalled : Bool
  reqHooksRun : List Nat
  respHookCalls : List (Nat × Nat × Option Response × Option Err)
deriving DecidableEq, Repr

/-- The request-hook loop of `HookRoundTripper.RoundTrip`, starting at hook
index `i`.  Each hook is represented by the error it returns (`none` =
success).  Returns the indices executed, in order, and the first error. -/
def runReqHooksFrom (i : Nat) : List (Option Err) → List Nat × Option Err
  | [] => ([], none)
  | h :: t =>
    match h with
    | some e => ([i], some e)
    | none =>
      match runReqHooksFrom (i + 1) t with
      | (l, r) => (i :: l, r)

/-- `HookRoundTripper.RoundTrip`: `reqHooks` are the registered request
hooks (each represented by the error it returns), `nRespHooks` the number of
registered response hooks, `req` an identifier for the request passed to the
hooks, and `base` the outcome of the wrapped transport. -/
def HookRoundTrip (reqHooks : List (Option Err)) (nRespHooks : Nat) (req : Nat)
    (base : Option Response × Option Err) : HookRTResult :=
  match runReqHooksFrom 0 reqHooks with
  | (ran, some e) =>
    -- a request hook failed: stop the request flow, return its error
    ⟨none, some e, false, ran, []⟩
  | (ran, none) =>
    -- the response hooks all run, with the base's response and error
    ⟨base.1, base.2, true, ran,
      (List.range nRespHooks).map fun j => (j, req, base.1, base.2)⟩

/-- `dialTraceKey` (transport_pooled.go): the per-destination key. -/
def dialTraceKey (network address : String) : String :=
  network ++ ":" ++ address

/-- The pooled transport's `stats` map: an association list from key to the
counter value (`sync.Map` of `*int64`, read here sequentially). -/
abbrev ConnStats := List (String × Int)

/-- Lookup in the stats map; `none` when the key was never stored. -/
def statsLookup : ConnStats → String → Option Int
  | [], _ => none
  | (k', v) :: t, k => if k' = k then some v else statsLookup t k

/-- `PooledTransport.traceConn(delta)` applied to `(network, address)`:
`LoadOrStore(key, new(int64))` followed by `atomic.AddInt64(·, delta)` —
i.e. add `delta` to the key's counter, creating it at 0 first if absent. -/
def statsAdd : ConnStats → String → Int → ConnStats
  | [], k, d => [(k, d)]
  | (k', v) :: t, k, d =>
    if k' = k then (k', v + d) :: t else (k', v) :: statsAdd t k d

/-- A connection-lifecycle event, as generated by `tracedDialer.DialContext`
and `tracedConn.Close`: a dial attempt to `(network, address)` that either
succeeds (invoking the `GotConn` hook) or fails (invoking only `ConnError`,
which the pooled transport leaves nil), and the close of a previously
obtained traced connection (invoking the `CloseConn` hook). -/
inductive ConnEvent where
  | dial (network address : String) (ok : Bool) : ConnEvent
  | closeConn (network address : String) : ConnEvent
deriving DecidableEq, Repr

/-- The effect of one connection event on the pooled transport's stats map:
`GotConn` is `traceConn(1)`, `CloseConn` is `traceConn(-1)`, and a failed
dial invokes neither. -/
def applyConnEvent (m : ConnStats) : ConnEvent → ConnStats
  | .dial n a ok => if ok then statsAdd m (dialTraceKey n a) 1 else m
  | .closeConn n a => statsAdd m (dialTraceKey n a) (-1)

/-- The stats map after a sequence of connection events, starting from the
empty map of a fresh `PooledTransport`.  `statsLookup` of the result is what
`Stats()` reports for a key. -/
def runConnEvents (evs : List ConnEvent) : ConnStats :=
  evs.foldl applyConnEvent []

/-- `ConstantBackoff`: a fixed wait regardless of the attempt number. -/
def ConstantBackoff (wait : Int) (_attempt : Nat) : Int :=
  wait

/-!
`ExponentialBackoff` computes in IEEE-754 binary64:
`mult := math.Pow(2, float64(attemptNum)) * float64(min)` followed by
`sleep := time.Duration(mult)` and the guard
`if float64(sleep) != mult || sleep > max { sleep = max }`.
We model binary64 values exactly.  Every finite double produced here is an
integer, so a finite double is an `Int` whose magnitude has at most 53
significant bits and is below `2^1024`; non-finite results (`±Inf`, `NaN`)
are `none`.  `int64 → float64` conversion rounds to nearest, ties to even
(`rnd53`); multiplying a finite double by the exact power `2^a` is exact
unless the magnitude reaches `2^1024`, in which case it overflows to
infinity.
-/

/-- Number of binary digits of a natural number (`bits 0 = 0`,
`bits n = ⌊log2 n⌋ + 1` for `n ≥ 1`).  Implemented with structural fuel so
that it evaluates by kernel reduction. -/
def bitsFuel : Nat → Nat → Nat
  | _, 0 => 0
  | 0, _ + 1 => 0
  | f + 1, n + 1 => bitsFuel f ((n + 1) / 2) + 1

/-- Number of binary digits of a natural number. -/
def bits (n : Nat) : Nat :=
  bitsFuel n n

/-- Round `n` to the nearest multiple of `2^s`, ties to even (the IEEE-754
rounding of the significand when `s` bits must be dropped); `s ≥ 1`. -/
def rndAt (s n : Nat) : Nat :=
  if n % 2 ^ s < 2 ^ (s - 1) then n / 2 ^ s * 2 ^ s
  else if 2 ^ (s - 1) < n % 2 ^ s then (n / 2 ^ s + 1) * 2 ^ s
  else if n / 2 ^ s % 2 = 0 then n / 2 ^ s * 2 ^ s
  else (n / 2 ^ s + 1) * 2 ^ s

/-- The binary64 value nearest to the natural number `n` (round to nearest,
ties to even): exact below `2^53`, otherwise the significand is rounded to
53 bits. -/
def rnd53 (n : Nat) : Nat :=
  if n ≤ 2 ^ 53 then n else rndAt (bits n - 53) n

/-- Exact representability as a (nonnegative) binary64: a significand of at
most 53 bits times a power of two. -/
def Rep (n : Nat) : Prop :=
  ∃ c k, c ≤ 2 ^ 53 ∧ n = c * 2 ^ k

/-- The binary64 value nearest to the integer `z` (IEEE rounding commutes
with negation).  This is the value of Go's `float64(z)` for an `int64` `z`
(never infinite, since `2^63 < 2^1024`). -/
def rnd53Int (z : Int) : Int :=
  if 0 ≤ z then (rnd53 z.natAbs : Int) else -(rnd53 z.natAbs : Int)

/-- `math.Pow(2, float64(a)) * float64(mn)` as an exact integer, `none` when
the result is not finite.  For `a < 1024` the power `2^a` is an exact
double and the product is the exact scaling of `float64(mn)` when its
magnitude stays below `2^1024` (a product with at most 53 significant bits
is representable exactly iff below `2^1024`); for `a ≥ 1024` the power is
`+Inf`, so the product is `±Inf` (or `NaN` when `mn = 0`), never finite. -/
def goPowMult (mn : Int) (a : Nat) : Option Int :=
  if a < 1024 then
    let m := rnd53Int mn
    if (m * 2 ^ a).natAbs < 2 ^ 1024 then some (m * 2 ^ a) else none
  else
    none

/-- Go's `time.Duration(mult)` for a double `mult` (`none` = non-finite):
truncation toward zero — our doubles are integers, so the identity — when
the value fits in `int64`.  For values outside the `int64` range (and for
non-finite values) the conversion's result is implementation-dependent in
Go; we adopt `math.MinInt64`, which the gc amd64 backend produces.  The
final backoff below is the same for every possible choice, because the
`float64(sleep) != mult` / `sleep > max` guard then always selects `max`. -/
def goDurationOfFloat : Option Int → Int
  | some v => if -(2 ^ 63) ≤ v ∧ v < 2 ^ 63 then v else -(2 ^ 63)
  | none => -(2 ^ 63)

/-- `ExponentialBackoff(min, max)` applied to `attemptNum`, with the
binary64 arithmetic of the source modelled exactly. -/
def ExponentialBackoff (mn mx : Int) (attemptNum : Nat) : Int :=
  let mult := goPowMult mn attemptNum
  let sleep := goDurationOfFloat mult
  if some (rnd53Int sleep) ≠ mult ∨ mx < sleep then mx else sleep

/-- An environment where the wrapped client always fails, the retry policy
always says retry, and there is no deadline, no cancellation and no body
factory. -/
def c1WitnessEnv : DoEnv where
  attemptResp := fun _ => none
  attemptErr := fun i => some (.transport i)
  ctxErrAt := fun _ => none
  checkRetry := fun _ _ _ => (true, none)
  getBody := none
  backoffStrategy := none
  timeToDeadline := fun _ => none
  doneDuringWait := fun _ => false
  waitCtxErr := fun _ => .ctx 0
  nowAt := fun _ => 0

/-- The same always-retry environment, but the request context carries a
deadline whose remaining time is already 0 at the first backoff check. -/
def c1CexEnv : DoEnv where
  attemptResp := fun _ => none
  attemptErr := fun i => some (.transport i)
  ctxErrAt := fun _ => none
  checkRetry := fun _ _ _ => (true, none)
  getBody := none
  backoffStrategy := none
  timeToDeadline := fun _ => some 0
  doneDuringWait := fun _ => false
  waitCtxErr := fun _ => .ctx 0
  nowAt := fun _ => 0

/-- An environment whose body factory succeeds twice and fails on its third
invocation, while the retry policy always retries. -/
def c3WitnessEnv : DoEnv where
  attemptResp := fun _ => none
  attemptErr := fun i => some (.transport i)
  ctxErrAt := fun _ => none
  checkRetry := fun _ _ _ => (true, none)
  getBody := some fun k => if k < 2 then none else some (.bodyRewind k)
  backoffStrategy := none
  timeToDeadline := fun _ => none
  doneDuringWait := fun _ => false
  waitCtxErr := fun _ => .ctx 0
  nowAt := fun _ => 0

/-- The per-entry invariant of the engine's drain log: the engine drained
attempt `p.1`'s response only after the retry decision said retry, only
while retries remained (`p.1 < K` with `K` the retry budget), only when the
attempt returned a non-nil response with a nil error, and it consumed
exactly `drainBody` of that body. -/
def DrainOK (env : DoEnv) (K : Nat) (p : Nat × Nat) : Prop :=
  (env.checkRetry (env.ctxErrAt p.1) (env.attemptResp p.1) (env.attemptErr p.1)).1 = true ∧
  env.attemptErr p.1 = none ∧ (env.attemptResp p.1).isSome = true ∧ p.1 < K ∧
  p.2 = drainBody (((env.attemptResp p.1).map Response.bodyLen).getD 0)

/-- An environment whose single attempt yields a 500 response with no
error, with a retry policy that always retries and an exhausted deadline. -/
def c10WitnessEnv : DoEnv where
  attemptResp := fun _ => some ⟨500, none, 10000⟩
  attemptErr := fun _ => none
  ctxErrAt := fun _ => none
  checkRetry := fun _ _ _ => (true, none)
  getBody := none
  backoffStrategy := none
  timeToDeadline := fun _ => some 0
  doneDuringWait := fun _ => false
  waitCtxErr := fun _ => .ctx 0
  nowAt := fun _ => 0

/-- Like `c10WitnessEnv`, but the wrapped client returns a non-nil response
together with a non-nil error (as `http.Client.Do` can, e.g. on a
`CheckRedirect` failure). -/
def c10CexEnv : DoEnv where
  attemptResp := fun _ => some ⟨502, none, 7⟩
  attemptErr := fun i => some (.transport i)
  ctxErrAt := fun _ => none
  checkRetry := fun _ _ _ => (true, none)
  getBody := none
  backoffStrategy := none
  timeToDeadline := fun _ => some 0
  doneDuringWait := fun _ => false
  waitCtxErr := fun _ => .ctx 0
  nowAt := fun _ => 0

/-! ## Theorems about the retry policy and backoff selection -/

/-- Claim C2: the default retry policy.  If the context is already canceled
or expired it returns no-retry with the context's error, regardless of the
transport error; otherwise a non-nil transport error yields retry with that
error; otherwise the decision depends only on the status code: retry exactly
on 0, or on `≥ 500` other than 501, and no-retry with nil error for every
other status.  When `CheckRetry` is nil, the client's dispatch uses exactly
this policy. -/
theorem ServerErrorsRetryPolicy_cases (ctxErr : Option Err) (resp : Response)
    (err : Option Err) :
    (∀ e, ctxErr = some e → ServerErrorsRetryPolicy ctxErr resp err = (false, some e)) ∧
    (ctxErr = none → ∀ e, err = some e →
      ServerErrorsRetryPolicy ctxErr resp err = (true, some e)) ∧
    (ctxErr = none → err = none →
      ServerErrorsRetryPolicy ctxErr resp err =
        if resp.statusCode = 0 ∨ (500 ≤ resp.statusCode ∧ resp.statusCode ≠ 501) then
          (true, none)
        else
          (false, none)) ∧
    (∀ ce r e, checkRetry none ce r e = ServerErrorsRetryPolicy ce r e) := by
  refine ⟨?_, ?_, ?_, ?_⟩
  · intro e he
    subst he
    rfl
  · intro hc e he
    subst hc
    subst he
    rfl
  · intro hc he
    subst hc
    subst he
    rfl
  · intro ce r e
    rfl

/-- Witness for C2 at concrete inputs: a 503 with a live context retries;
an expired context wins over a transport error. -/
theorem ServerErrorsRetryPolicy_cases_witness :
    ServerErrorsRetryPolicy none ⟨503, none, 0⟩ none = (true, none) ∧
    ServerErrorsRetryPolicy (some (Err.ctx 0)) ⟨200, none, 0⟩ (some (Err.transport 1)) =
      (false, some (Err.ctx 0)) := by
  constructor
  · rw [(ServerErrorsRetryPolicy_cases none ⟨503, none, 0⟩ none).2.2.1 rfl rfl]
    decide
  · exact (ServerErrorsRetryPolicy_cases (some (Err.ctx 0)) ⟨200, none, 0⟩
      (some (Err.transport 1))).1 (Err.ctx 0) rfl

lemma wrapInt64_eq_of_range (z : Int) (h1 : -(2 ^ 63) ≤ z) (h2 : z ≤ 2 ^ 63 - 1) :
    wrapInt64 z = z := by
  unfold wrapInt64
  have h3 : (z + 2 ^ 63) % 2 ^ 64 = z + 2 ^ 63 :=
    Int.emod_eq_of_lt (by omega) (by omega)
  rw [h3]
  omega

lemma satSub64_eq_of_range (t u : Int) (h1 : -(2 ^ 63) ≤ t - u) (h2 : t - u ≤ 2 ^ 63 - 1) :
    satSub64 t u = t - u := by
  unfold satSub64
  rw [if_neg (by omega), if_neg (by omega)]

/-- Claim C4 (amended): backoff selection.  When the response is non-nil
with status 429 or 503 and its `Retry-After` first value parses, the
resulting duration is the wait, whatever the configured strategy; for an
HTTP date that duration is the date minus the current UTC time, and for
integer seconds it is that many seconds, whenever the duration fits the
`int64` nanosecond range (outside it the date difference saturates and the
seconds conversion wraps); in every other case the wait is the configured
strategy applied to the attempt number, or 0 when no strategy is set. -/
theorem backoffDuration_cases (strategy : Option (Nat → Int)) (now : Int)
    (attemptNum : Nat) (resp : Option Response) :
    (∀ r v d, resp = some r → (r.statusCode = 429 ∨ r.statusCode = 503) →
      r.retryAfter = some v → retryAfterDuration now v = some d →
      backoffDuration strategy now attemptNum resp = d) ∧
    (∀ t, -(2 ^ 63) ≤ t - now → t - now ≤ 2 ^ 63 - 1 →
      retryAfterDuration now (.httpDate t) = some (t - now)) ∧
    (∀ n, -(2 ^ 63) ≤ n * 1000000000 → n * 1000000000 ≤ 2 ^ 63 - 1 →
      retryAfterDuration now (.seconds n) = some (n * 1000000000)) ∧
    ((match resp with
      | some r => ¬(r.statusCode = 429 ∨ r.statusCode = 503) ∨ r.retryAfter = none ∨
          ∃ v, r.retryAfter = some v ∧ retryAfterDuration now v = none
      | none => True) →
      backoffDuration strategy now attemptNum resp = defaultBackoff strategy attemptNum) ∧
    (∀ f, defaultBackoff (some f) attemptNum = f attemptNum) ∧
    defaultBackoff none attemptNum = 0 := by
  refine ⟨?_, ?_, ?_, ?_, fun f => rfl, rfl⟩
  · intro r v d hr hs hv hd
    subst hr
    simp only [backoffDuration, if_pos hs, hv, hd]
  · intro t ht1 ht2
    simp only [retryAfterDuration, satSub64_eq_of_range t now ht1 ht2]
  · intro n hn1 hn2
    simp only [retryAfterDuration, wrapInt64_eq_of_range _ hn1 hn2]
  · cases resp with
    | none => intro _; rfl
    | some r =>
      intro h
      rcases h with h | h | ⟨v, hv, hn⟩
      · simp only [backoffDuration, if_neg h]
      · simp only [backoffDuration, h]
        split <;> rfl
      · simp only [backoffDuration, hv, hn]
        split <;> rfl

/-- Witness for C4: `Retry-After: 2` on a 429 beats the configured
strategy; without the header the strategy decides. -/
theorem backoffDuration_cases_witness :
    backoffDuration (some fun n => (n + 1) * 100) 0 2
      (some ⟨429, some (.seconds 2), 0⟩) = 2000000000 ∧
    retryAfterDuration 0 (.seconds 2) = some (2 * 1000000000) ∧
    backoffDuration (some fun n => (n + 1) * 100) 0 2 (some ⟨500, none, 0⟩) = 300 := by
  refine ⟨?_, ?_, ?_⟩
  · exact (backoffDuration_cases (some fun n => (n + 1) * 100) 0 2
      (some ⟨429, some (.seconds 2), 0⟩)).1 ⟨429, some (.seconds 2), 0⟩
      (.seconds 2) 2000000000 rfl (Or.inl rfl) rfl (by decide)
  · exact (backoffDuration_cases (some fun n => (n + 1) * 100) 0 2
      (some ⟨429, some (.seconds 2), 0⟩)).2.2.1 2 (by norm_num) (by norm_num)
  · have h := (backoffDuration_cases (some fun n => (n + 1) * 100) 0 2
      (some ⟨500, none, 0⟩)).2.2.2.1 (Or.inr (Or.inl rfl))
    simpa [defaultBackoff] using h

/-- Counterexample to C4 as stated: `Retry-After: -10000000000` on a 429
parses as integer seconds, whose duration is -10^19 nanoseconds, but the
`time.Duration(d) * time.Second` conversion wraps in `int64`, so the
engine's wait is 8446744073709551616 nanoseconds (about 267 years), not the
header's duration. -/
theorem backoffDuration_overflow_counterexample :
    backoffDuration none 0 0 (some ⟨429, some (.seconds (-10000000000)), 0⟩) =
      8446744073709551616 ∧
    (-10000000000 : Int) * 1000000000 = -10000000000000000000 ∧
    (8446744073709551616 : Int) ≠ -10000000000000000000 := by
  refine ⟨by decide, by norm_num, by norm_num⟩

/-! ## Theorems about the circuit-breaker round tripper -/

/-- Claim C6: when the breaker denies, the wrapped transport is never
invoked and the result is a nil response with the distinct circuit-open
sentinel; when it allows, the wrapped transport's response and error are
returned unaltered.  The sentinel differs from every transport and context
error. -/
theorem CircuitBreakerRoundTrip_cases (allowed : Bool) (check : Option Response → Bool)
    (base : Option Response × Option Err) :
    (allowed = false →
      CircuitBreakerRoundTrip allowed check base =
        ⟨none, some ErrCircuitOpen, false, .idle⟩) ∧
    (allowed = true →
      (CircuitBreakerRoundTrip allowed check base).resp = base.1 ∧
      (CircuitBreakerRoundTrip allowed check base).err = base.2 ∧
      (CircuitBreakerRoundTrip allowed check base).baseCalled = true) ∧
    (∀ n, ErrCircuitOpen ≠ Err.transport n) ∧
    (∀ n, ErrCircuitOpen ≠ Err.ctx n) := by
  refine ⟨?_, ?_, fun n => by simp [ErrCircuitOpen], fun n => by simp [ErrCircuitOpen]⟩
  · intro h
    subst h
    rfl
  · intro h
    subst h
    obtain ⟨res, err⟩ := base
    cases err with
    | some e => exact ⟨rfl, rfl, rfl⟩
    | none =>
      simp only [CircuitBreakerRoundTrip]
      cases check res <;> exact ⟨rfl, rfl, rfl⟩

/-- Witness for C6 at concrete inputs: a denied request returns the
sentinel without executing the base; an allowed one passes the base's
outcome through. -/
theorem CircuitBreakerRoundTrip_cases_witness :
    CircuitBreakerRoundTrip false (fun _ => true) (some ⟨200, none, 0⟩, none) =
      ⟨none, some ErrCircuitOpen, false, .idle⟩ ∧
    (CircuitBreakerRoundTrip true (fun _ => true)
      (none, some (Err.transport 3))).err = some (Err.transport 3) := by
  exact ⟨(CircuitBreakerRoundTrip_cases false (fun _ => true)
      (some ⟨200, none, 0⟩, none)).1 rfl,
    ((CircuitBreakerRoundTrip_cases true (fun _ => true)
      (none, some (Err.transport 3))).2.1 rfl).2.1⟩

/-! ## Theorems about the hook round tripper -/

lemma runReqHooksFrom_all_none :
    ∀ (hooks : List (Option Err)) (i : Nat), (∀ x ∈ hooks, x = none) →
      runReqHooksFrom i hooks = (List.range' i hooks.length, none) := by
  intro hooks
  induction hooks with
  | nil => intro i _; rfl
  | cons h t ih =>
    intro i hall
    have hh : h = none := hall h (List.mem_cons_self h t)
    subst hh
    have ht : ∀ x ∈ t, x = none := fun x hx => hall x (List.mem_cons_of_mem _ hx)
    simp only [runReqHooksFrom]
    rw [ih (i + 1) ht]
    simp [List.range']

lemma runReqHooksFrom_first_error :
    ∀ (pre : List (Option Err)) (i : Nat) (e : Err) (suf : List (Option Err)),
      (∀ x ∈ pre, x = none) →
      runReqHooksFrom i (pre ++ some e :: suf) =
        (List.range' i (pre.length + 1), some e) := by
  intro pre
  induction pre with
  | nil => intro i e suf _; rfl
  | cons h t ih =>
    intro i e suf hall
    have hh : h = none := hall h (List.mem_cons_self h t)
    subst hh
    have ht : ∀ x ∈ t, x = none := fun x hx => hall x (List.mem_cons_of_mem _ hx)
    simp only [List.cons_append, runReqHooksFrom]
    rw [show (t.append (some e :: suf)) = t ++ some e :: suf from rfl, ih (i + 1) e suf ht]
    simp [List.range']

/-- Claim C7: if request hook number `pre.length` (0-based) is the first to
return an error, the wrapped transport is never invoked, no response hook
runs, and `RoundTrip` returns a nil response with exactly that error; the
hooks before it (and it) ran, in registration order. -/
theorem HookRoundTrip_reqHook_error (pre suf : List (Option Err)) (e : Err)
    (nRespHooks req : Nat) (base : Option Response × Option Err)
    (hpre : ∀ x ∈ pre, x = none) :
    HookRoundTrip (pre ++ some e :: suf) nRespHooks req base =
      ⟨none, some e, false, List.range (pre.length + 1), []⟩ := by
  simp only [HookRoundTrip, runReqHooksFrom_first_error pre 0 e suf hpre,
    List.range_eq_range']

/-- Witness for C7: the second of three hooks fails. -/
theorem HookRoundTrip_reqHook_error_witness :
    HookRoundTrip [none, some (Err.hookFail 1), none] 2 7 (some ⟨200, none, 0⟩, none) =
      ⟨none, some (Err.hookFail 1), false, [0, 1], []⟩ := by
  have h := HookRoundTrip_reqHook_error [none] [none] (Err.hookFail 1) 2 7
    (some ⟨200, none, 0⟩, none) (by intro x hx; simpa using hx)
  simpa using h

/-- Claim C8: when every request hook succeeds, every registered response
hook runs exactly once, in registration order, receiving the request and
the wrapped transport's response-or-nil and error-or-nil (also when that
error is non-nil), and the wrapped transport's response and error are
returned unchanged. -/
theorem HookRoundTrip_respHooks (hooks : List (Option Err)) (nRespHooks req : Nat)
    (base : Option Response × Option Err) (hall : ∀ x ∈ hooks, x = none) :
    HookRoundTrip hooks nRespHooks req base =
      ⟨base.1, base.2, true, List.range hooks.length,
        (List.range nRespHooks).map fun j => (j, req, base.1, base.2)⟩ := by
  simp only [HookRoundTrip, runReqHooksFrom_all_none hooks 0 hall,
    List.range_eq_range']

/-- Witness for C8: the wrapped transport errors; both response hooks still
run, in order, and the error comes back verbatim. -/
theorem HookRoundTrip_respHooks_witness :
    HookRoundTrip [none, none] 2 7 (none, some (Err.transport 1)) =
      ⟨none, some (Err.transport 1), true, [0, 1],
        [(0, 7, none, some (Err.transport 1)), (1, 7, none, some (Err.transport 1))]⟩ := by
  have h := HookRoundTrip_respHooks [none, none] 2 7 (none, some (Err.transport 1))
    (by intro x hx; simpa using hx)
  simpa using h

/-! ## Theorems about the pooled transport's connection counters -/

lemma statsLookup_statsAdd_self :
    ∀ (m : ConnStats) (k : String) (d : Int),
      statsLookup (statsAdd m k d) k = some ((statsLookup m k).getD 0 + d) := by
  intro m
  induction m with
  | nil => intro k d; simp [statsAdd, statsLookup]
  | cons p t ih =>
    intro k d
    obtain ⟨k', v⟩ := p
    by_cases h : k' = k
    · subst h
      simp [statsAdd, statsLookup]
    · simp [statsAdd, statsLookup, h, ih]

lemma statsLookup_statsAdd_other :
    ∀ (m : ConnStats) (k k' : String) (d : Int), k' ≠ k →
      statsLookup (statsAdd m k' d) k = statsLookup m k := by
  intro m
  induction m with
  | nil => intro k k' d h; simp [statsAdd, statsLookup, h]
  | cons p t ih =>
    intro k k' d h
    obtain ⟨k0, v⟩ := p
    by_cases h0 : k0 = k'
    · subst h0
      simp [statsAdd, statsLookup, h]
    · simp [statsAdd, statsLookup, h0, ih _ _ _ h]

lemma statsLookup_fold_replicate (ev : ConnEvent) (k : String) (d : Int)
    (hev : ∀ mm, applyConnEvent mm ev = statsAdd mm k d) :
    ∀ (N : Nat) (m : ConnStats), 0 < N →
      statsLookup (List.foldl applyConnEvent m (List.replicate N ev)) k =
        some ((statsLookup m k).getD 0 + N * d) := by
  intro N
  induction N with
  | zero => intro m h; omega
  | succ n ih =>
    intro m _
    rcases Nat.eq_zero_or_pos n with hn | hn
    · subst hn
      simp [List.replicate, hev, statsLookup_statsAdd_self]
    · have step : List.foldl applyConnEvent m (List.replicate (n + 1) ev) =
          List.foldl applyConnEvent (statsAdd m k d) (List.replicate n ev) := by
        simp [List.replicate, hev]
      rw [step, ih (statsAdd m k d) hn, statsLookup_statsAdd_self]
      simp only [Option.getD_some, Nat.cast_succ]
      congr 1
      ring

/-- Claim C9: the per-`network:address` counter is incremented exactly on a
successful dial, decremented exactly once per connection close, and
unchanged by a failed dial; consequently, after `N ≥ 1` successful dials to
one address followed by `N` closes of that address's connections, `Stats()`
maps that key to 0. -/
theorem PooledTransport_stats_balance (network address : String) (N : Nat)
    (hN : 0 < N) :
    statsLookup
        (runConnEvents (List.replicate N (.dial network address true) ++
          List.replicate N (.closeConn network address)))
        (dialTraceKey network address) = some 0 ∧
    (∀ m n a, applyConnEvent m (.dial n a false) = m) ∧
    (∀ m n a, statsLookup (applyConnEvent m (.dial n a true)) (dialTraceKey n a) =
      some ((statsLookup m (dialTraceKey n a)).getD 0 + 1)) ∧
    (∀ m n a, statsLookup (applyConnEvent m (.closeConn n a)) (dialTraceKey n a) =
      some ((statsLookup m (dialTraceKey n a)).getD 0 - 1)) := by
  refine ⟨?_, fun m n a => rfl, ?_, ?_⟩
  · have hdial : ∀ mm, applyConnEvent mm (.dial network address true) =
        statsAdd mm (dialTraceKey network address) 1 := fun mm => rfl
    have hclose : ∀ mm, applyConnEvent mm (.closeConn network address) =
        statsAdd mm (dialTraceKey network address) (-1) := fun mm => rfl
    have h1 := statsLookup_fold_replicate _ _ _ hdial N ([] : ConnStats) hN
    have h2 := statsLookup_fold_replicate _ _ _ hclose N
      (List.foldl applyConnEvent [] (List.replicate N (.dial network address true))) hN
    rw [runConnEvents, List.foldl_append, h2, h1]
    simp [statsLookup]
  · intro m n a
    have h : applyConnEvent m (.dial n a true) = statsAdd m (dialTraceKey n a) 1 := rfl
    rw [h, statsLookup_statsAdd_self]
  · intro m n a
    have h : applyConnEvent m (.closeConn n a) = statsAdd m (dialTraceKey n a) (-1) := rfl
    rw [h, statsLookup_statsAdd_self]
    simp [Int.sub_eq_add_neg]

/-- Witness for C9 at `N = 2` on a concrete destination. -/
theorem PooledTransport_stats_balance_witness :
    statsLookup
        (runConnEvents (List.replicate 2 (.dial "tcp" "10.0.0.1:80" true) ++
          List.replicate 2 (.closeConn "tcp" "10.0.0.1:80")))
        (dialTraceKey "tcp" "10.0.0.1:80") = some 0 :=
  (PooledTransport_stats_balance "tcp" "10.0.0.1:80" 2 (by decide)).1

/-! ## Theorems about the retry loop of `Do` -/

lemma doLoop_always_retry (env : DoEnv)
    (hcr : ∀ j, (env.checkRetry (env.ctxErrAt j) (env.attemptResp j)
      (env.attemptErr j)).1 = true)
    (hgb : ∀ f, env.getBody = some f → ∀ k, f k = none)
    (hdl : ∀ j t, env.timeToDeadline j = some t →
      backoffDuration env.backoffStrategy (env.nowAt j) j (env.attemptResp j) < t)
    (hdone : ∀ j, env.doneDuringWait j = false) :
    ∀ remaining i calls gbCalls drained,
      (doLoop env remaining i calls gbCalls drained).calls = calls + remaining + 1 ∧
      (doLoop env remaining i calls gbCalls drained).resp = env.attemptResp (i + remaining) ∧
      (doLoop env remaining i calls gbCalls drained).err = env.attemptErr (i + remaining) ∧
      (doLoop env remaining i calls gbCalls drained).exit = .exhausted := by
  intro remaining
  induction remaining with
  | zero =>
    intro i calls gbCalls drained
    cases hgbe : env.getBody with
    | none =>
      unfold doLoop
      simp [hgbe, hcr i, Bool.true_eq_false, if_false]
    | some f =>
      unfold doLoop
      simp [hgbe, hgb f hgbe gbCalls, hcr i, Bool.true_eq_false, if_false]
  | succ r ih =>
    intro i calls gbCalls drained
    have hix : i + 1 + r = i + (r + 1) := by omega
    have step : doLoop env (r + 1) i calls gbCalls drained =
        doLoop env r (i + 1) (calls + 1)
          (match env.getBody with | some _ => gbCalls + 1 | none => gbCalls)
          (if ((env.attemptErr i).isNone && (env.attemptResp i).isSome) = true then
            drained ++ [(i, drainBody (((env.attemptResp i).map Response.bodyLen).getD 0))]
          else drained) := by
      cases hgbe : env.getBody with
      | none =>
        cases hd : env.timeToDeadline i with
        | none =>
          conv_lhs => unfold doLoop
          simp only [hgbe, hcr i, hd, hdone i, Bool.true_eq_false, Bool.false_eq_true,
            if_false]
        | some t =>
          conv_lhs => unfold doLoop
          simp only [hgbe, hcr i, hd, hdone i, if_neg (not_le.mpr (hdl i t hd)),
            Bool.true_eq_false, Bool.false_eq_true, if_false]
      | some f =>
        cases hd : env.timeToDeadline i with
        | none =>
          conv_lhs => unfold doLoop
          simp only [hgbe, hgb f hgbe gbCalls, hcr i, hd, hdone i, Bool.true_eq_false,
            Bool.false_eq_true, if_false]
        | some t =>
          conv_lhs => unfold doLoop
          simp only [hgbe, hgb f hgbe gbCalls, hcr i, hd, hdone i,
            if_neg (not_le.mpr (hdl i t hd)), Bool.true_eq_false, Bool.false_eq_true,
            if_false]
    rw [step]
    refine ⟨by rw [(ih (i + 1) (calls + 1) _ _).1]; omega,
      by rw [(ih (i + 1) (calls + 1) _ _).2.1, hix],
      by rw [(ih (i + 1) (calls + 1) _ _).2.2.1, hix],
      (ih (i + 1) (calls + 1) _ _).2.2.2⟩

/-- Claim C1 (amended): with `RetryMax = N ≥ 0`, if the retry decision on
each attempt's observed context error, response and error says to retry,
the body factory never fails, no context deadline sits at or below any
computed backoff wait, and the context is not canceled during any backoff
wait, then `Do` invokes the wrapped client exactly `N + 1` times and
returns the response and error observed on the last attempt, exiting
through the retry-exhaustion return (which substitutes no distinct
error). -/
theorem Do_always_retry_exhausts (env : DoEnv) (N : Nat)
    (hcr : ∀ j, (env.checkRetry (env.ctxErrAt j) (env.attemptResp j)
      (env.attemptErr j)).1 = true)
    (hgb : ∀ f, env.getBody = some f → ∀ k, f k = none)
    (hdl : ∀ j t, env.timeToDeadline j = some t →
      backoffDuration env.backoffStrategy (env.nowAt j) j (env.attemptResp j) < t)
    (hdone : ∀ j, env.doneDuringWait j = false) :
    (Do env (N : Int)).calls = N + 1 ∧
    (Do env (N : Int)).resp = env.attemptResp N ∧
    (Do env (N : Int)).err = env.attemptErr N ∧
    (Do env (N : Int)).exit = .exhausted := by
  have h := doLoop_always_retry env hcr hgb hdl hdone N 0 0 0 []
  rw [Do, Int.toNat_natCast]
  refine ⟨by rw [h.1]; omega, by rw [h.2.1, Nat.zero_add], by rw [h.2.2.1, Nat.zero_add],
    h.2.2.2⟩

/-- Witness for C1 at `N = 2`: three invocations, and the third attempt's
error comes back. -/
theorem Do_always_retry_exhausts_witness :
    (Do c1WitnessEnv ((2 : Nat) : Int)).calls = 2 + 1 ∧
    (Do c1WitnessEnv ((2 : Nat) : Int)).err = some (Err.transport 2) := by
  have h := Do_always_retry_exhausts c1WitnessEnv 2
    (fun _ => rfl)
    (fun f hf _ => by simp [c1WitnessEnv] at hf)
    (fun j t ht => by simp [c1WitnessEnv] at ht)
    (fun _ => rfl)
  exact ⟨h.1, (h.2.2.1).trans rfl⟩

/-- Counterexample to C1 as stated: with `RetryMax = 1` and a `CheckRetry`
that says retry after every attempt, `Do` performs a single wrapped-client
invocation, not `1 + 1`, because the context deadline short-circuits the
loop before the second attempt. -/
theorem Do_always_retry_counterexample :
    (∀ j, (c1CexEnv.checkRetry (c1CexEnv.ctxErrAt j) (c1CexEnv.attemptResp j)
      (c1CexEnv.attemptErr j)).1 = true) ∧
    (Do c1CexEnv 1).calls = 1 ∧ ¬(Do c1CexEnv 1).calls = 1 + 1 ∧
    (Do c1CexEnv 1).exit = .deadlineShort := by
  exact ⟨fun _ => rfl, by decide, by decide, by decide⟩

lemma doLoop_getBody_spec (env : DoEnv) (f : Nat → Option Err)
    (hf : env.getBody = some f) :
    ∀ remaining i calls drained,
      ((doLoop env remaining i calls calls drained).exit = .getBodyFail →
        (doLoop env remaining i calls calls drained).resp = none ∧
        (doLoop env remaining i calls calls drained).err =
          f (doLoop env remaining i calls calls drained).calls ∧
        (doLoop env remaining i calls calls drained).getBodyCalls =
          (doLoop env remaining i calls calls drained).calls + 1) ∧
      ((doLoop env remaining i calls calls drained).exit ≠ .getBodyFail →
        (doLoop env remaining i calls calls drained).getBodyCalls =
          (doLoop env remaining i calls calls drained).calls) := by
  intro remaining
  induction remaining with
  | zero =>
    intro i calls drained
    cases he : f calls with
    | some e =>
      unfold doLoop
      simp [hf, he]
    | none =>
      unfold doLoop
      simp only [hf, he]
      by_cases hcr : (env.checkRetry (env.ctxErrAt i) (env.attemptResp i)
          (env.attemptErr i)).1 = false
      · rw [if_pos hcr]
        exact ⟨fun h => by simp at h, fun _ => rfl⟩
      · rw [if_neg hcr]
        exact ⟨fun h => by simp at h, fun _ => rfl⟩
  | succ r ih =>
    intro i calls drained
    cases he : f calls with
    | some e =>
      unfold doLoop
      simp [hf, he]
    | none =>
      unfold doLoop
      simp only [hf, he]
      by_cases hcr : (env.checkRetry (env.ctxErrAt i) (env.attemptResp i)
          (env.attemptErr i)).1 = false
      · rw [if_pos hcr]
        exact ⟨fun h => by simp at h, fun _ => rfl⟩
      · rw [if_neg hcr]
        cases hd : env.timeToDeadline i with
        | some t =>
          simp only [hd]
          by_cases hts : t ≤ backoffDuration env.backoffStrategy (env.nowAt i) i
              (env.attemptResp i)
          · rw [if_pos hts]
            exact ⟨fun h => by simp at h, fun _ => rfl⟩
          · rw [if_neg hts]
            cases hdw : env.doneDuringWait i with
            | true =>
              simp only [hdw]
              rw [if_pos trivial]
              exact ⟨fun h => by simp at h, fun _ => rfl⟩
            | false =>
              simp only [hdw, Bool.false_eq_true, if_false]
              exact ih (i + 1) (calls + 1) _
        | none =>
          simp only [hd]
          cases hdw : env.doneDuringWait i with
          | true =>
            simp only [hdw]
            rw [if_pos trivial]
            exact ⟨fun h => by simp at h, fun _ => rfl⟩
          | false =>
            simp only [hdw, Bool.false_eq_true, if_false]
            exact ih (i + 1) (calls + 1) _

/-- Claim C3: when the request's `GetBody` factory is non-nil, every
attempt (including every retried one) is preceded by exactly one fresh
`GetBody` invocation; and whenever `GetBody` returns an error the engine
aborts at once with a nil response and that error, performing no further
wrapped-client call (in particular, a first-invocation failure yields zero
network calls). -/
theorem Do_getBody_rewind (env : DoEnv) (f : Nat → Option Err) (retryMax : Int)
    (hf : env.getBody = some f) :
    ((Do env retryMax).exit ≠ .getBodyFail →
      (Do env retryMax).getBodyCalls = (Do env retryMax).calls) ∧
    ((Do env retryMax).exit = .getBodyFail →
      (Do env retryMax).resp = none ∧
      (Do env retryMax).err = f (Do env retryMax).calls ∧
      (Do env retryMax).getBodyCalls = (Do env retryMax).calls + 1) ∧
    (∀ e, f 0 = some e →
      Do env retryMax = ⟨none, some e, 0, 1, [], false, .getBodyFail⟩) := by
  have h := doLoop_getBody_spec env f hf retryMax.toNat 0 0 []
  refine ⟨h.2, h.1, ?_⟩
  intro e he
  cases hr : retryMax.toNat with
  | zero => simp only [Do, hr, doLoop, hf, he]
  | succ r => simp only [Do, hr, doLoop, hf, he]

/-- Witness for C3: the third `GetBody` invocation fails, so `Do` stops
after two wrapped-client calls with a nil response and the rewind error. -/
theorem Do_getBody_rewind_witness :
    (Do c3WitnessEnv 9).exit = .getBodyFail ∧
    (Do c3WitnessEnv 9).resp = none ∧
    (Do c3WitnessEnv 9).err = (fun k => if k < 2 then none else some (Err.bodyRewind k))
      (Do c3WitnessEnv 9).calls ∧
    (Do c3WitnessEnv 9).getBodyCalls = (Do c3WitnessEnv 9).calls + 1 := by
  have h := (Do_getBody_rewind c3WitnessEnv
    (fun k => if k < 2 then none else some (.bodyRewind k)) 9 rfl).2.1 (by decide)
  exact ⟨by decide, h.1, h.2.1, h.2.2⟩

lemma doLoop_drain_spec (env : DoEnv) (K : Nat) :
    ∀ remaining i calls gbCalls drained,
      i + remaining = K →
      (∀ p ∈ drained, DrainOK env K p) →
      ((∀ p ∈ (doLoop env remaining i calls gbCalls drained).drained, DrainOK env K p) ∧
       (((doLoop env remaining i calls gbCalls drained).exit = .checkStop ∨
         (doLoop env remaining i calls gbCalls drained).exit = .exhausted) →
         (doLoop env remaining i calls gbCalls drained).respDrained = false) ∧
       ((doLoop env remaining i calls gbCalls drained).exit = .deadlineShort →
         (doLoop env remaining i calls gbCalls drained).respDrained =
           ((doLoop env remaining i calls gbCalls drained).err.isNone &&
            (doLoop env remaining i calls gbCalls drained).resp.isSome))) := by
  intro remaining
  induction remaining with
  | zero =>
    intro i calls gbCalls drained hK hdr
    cases hgbe : env.getBody with
    | some f =>
      cases hfe : f gbCalls with
      | some e =>
        unfold doLoop
        simp only [hgbe, hfe]
        exact ⟨hdr, by simp, by simp⟩
      | none =>
        unfold doLoop
        simp only [hgbe, hfe]
        by_cases hcr : (env.checkRetry (env.ctxErrAt i) (env.attemptResp i)
            (env.attemptErr i)).1 = false
        · rw [if_pos hcr]
          exact ⟨hdr, fun _ => rfl, fun h => by simp at h⟩
        · rw [if_neg hcr]
          exact ⟨hdr, fun _ => rfl, fun h => by simp at h⟩
    | none =>
      unfold doLoop
      simp only [hgbe]
      by_cases hcr : (env.checkRetry (env.ctxErrAt i) (env.attemptResp i)
          (env.attemptErr i)).1 = false
      · rw [if_pos hcr]
        exact ⟨hdr, fun _ => rfl, fun h => by simp at h⟩
      · rw [if_neg hcr]
        exact ⟨hdr, fun _ => rfl, fun h => by simp at h⟩
  | succ r ih =>
    intro i calls gbCalls drained hK hdr
    cases hgbe : env.getBody with
    | some f =>
      cases hfe : f gbCalls with
      | some e =>
        unfold doLoop
        simp only [hgbe, hfe]
        exact ⟨hdr, by simp, by simp⟩
      | none =>
        unfold doLoop
        simp only [hgbe, hfe]
        by_cases hcr : (env.checkRetry (env.ctxErrAt i) (env.attemptResp i)
            (env.attemptErr i)).1 = false
        · rw [if_pos hcr]
          exact ⟨hdr, fun _ => rfl, fun h => by simp at h⟩
        · rw [if_neg hcr]
          have hdr1 : ∀ p ∈ (if ((env.attemptErr i).isNone && (env.attemptResp i).isSome) = true
              then drained ++ [(i, drainBody (((env.attemptResp i).map Response.bodyLen).getD 0))]
              else drained), DrainOK env K p := by
            by_cases hdd : ((env.attemptErr i).isNone && (env.attemptResp i).isSome) = true
            · rw [if_pos hdd]
              intro p hp
              rcases List.mem_append.mp hp with hp | hp
              · exact hdr p hp
              · have hp2 : p = (i, drainBody (((env.attemptResp i).map Response.bodyLen).getD 0)) := by
                  simpa using hp
                subst hp2
                obtain ⟨hb, hs⟩ := Bool.and_eq_true_iff.mp hdd
                exact ⟨eq_true_of_ne_false hcr, Option.isNone_iff_eq_none.mp hb, hs,
                  by omega, rfl⟩
            · rw [if_neg hdd]
              exact hdr
          cases hd : env.timeToDeadline i with
          | some t =>
            simp only [hd]
            by_cases hts : t ≤ backoffDuration env.backoffStrategy (env.nowAt i) i
                (env.attemptResp i)
            · rw [if_pos hts]
              exact ⟨hdr1, fun h => by rcases h with h | h <;> simp at h, fun _ => rfl⟩
            · rw [if_neg hts]
              cases hdw : env.doneDuringWait i with
              | true =>
                simp only [hdw]
                rw [if_pos trivial]
                exact ⟨hdr1, fun h => by rcases h with h | h <;> simp at h,
                  fun h => by simp at h⟩
              | false =>
                simp only [hdw, Bool.false_eq_true, if_false]
                exact ih (i + 1) (calls + 1) _ _ (by omega) hdr1
          | none =>
            simp only [hd]
            cases hdw : env.doneDuringWait i with
            | true =>
              simp only [hdw]
              rw [if_pos trivial]
              exact ⟨hdr1, fun h => by rcases h with h | h <;> simp at h,
                fun h => by simp at h⟩
            | false =>
              simp only [hdw, Bool.false_eq_true, if_false]
              exact ih (i + 1) (calls + 1) _ _ (by omega) hdr1

    | none =>
      unfold doLoop
      simp only [hgbe]
      by_cases hcr : (env.checkRetry (env.ctxErrAt i) (env.attemptResp i)
          (env.attemptErr i)).1 = false
      · rw [if_pos hcr]
        exact ⟨hdr, fun _ => rfl, fun h => by simp at h⟩
      · rw [if_neg hcr]
        have hdr1 : ∀ p ∈ (if ((env.attemptErr i).isNone && (env.attemptResp i).isSome) = true
            then drained ++ [(i, drainBody (((env.attemptResp i).map Response.bodyLen).getD 0))]
            else drained), DrainOK env K p := by
          by_cases hdd : ((env.attemptErr i).isNone && (env.attemptResp i).isSome) = true
          · rw [if_pos hdd]
            intro p hp
            rcases List.mem_append.mp hp with hp | hp
            · exact hdr p hp
            · have hp2 : p = (i, drainBody (((env.attemptResp i).map Response.bodyLen).getD 0)) := by
                simpa using hp
              subst hp2
              obtain ⟨hb, hs⟩ := Bool.and_eq_true_iff.mp hdd
              exact ⟨eq_true_of_ne_false hcr, Option.isNone_iff_eq_none.mp hb, hs,
                by omega, rfl⟩
          · rw [if_neg hdd]
            exact hdr
        cases hd : env.timeToDeadline i with
        | some t =>
          simp only [hd]
          by_cases hts : t ≤ backoffDuration env.backoffStrategy (env.nowAt i) i
              (env.attemptResp i)
          · rw [if_pos hts]
            exact ⟨hdr1, fun h => by rcases h with h | h <;> simp at h, fun _ => rfl⟩
          · rw [if_neg hts]
            cases hdw : env.doneDuringWait i with
            | true =>
              simp only [hdw]
              rw [if_pos trivial]
              exact ⟨hdr1, fun h => by rcases h with h | h <;> simp at h,
                fun h => by simp at h⟩
            | false =>
              simp only [hdw, Bool.false_eq_true, if_false]
              exact ih (i + 1) (calls + 1) _ _ (by omega) hdr1
        | none =>
          simp only [hd]
          cases hdw : env.doneDuringWait i with
          | true =>
            simp only [hdw]
            rw [if_pos trivial]
            exact ⟨hdr1, fun h => by rcases h with h | h <;> simp at h,
              fun h => by simp at h⟩
          | false =>
            simp only [hdw, Bool.false_eq_true, if_false]
            exact ih (i + 1) (calls + 1) _ _ (by omega) hdr1


/-- Claim C10 (amended): the engine drains (`min` of the body length and
4096 bytes) and closes a response body only after the retry decision said
retry and only while retries remain, and only for attempts whose error was
nil and whose response was non-nil; a response returned through the
check-stop or retry-exhaustion paths is untouched; on the deadline
short-circuit path the returned response's body has been drained and closed
exactly when the final attempt produced a non-nil response with a nil
error. -/
theorem Do_drain_policy (env : DoEnv) (retryMax : Int) :
    (∀ p ∈ (Do env retryMax).drained,
      (env.checkRetry (env.ctxErrAt p.1) (env.attemptResp p.1) (env.attemptErr p.1)).1 = true ∧
      env.attemptErr p.1 = none ∧ (env.attemptResp p.1).isSome = true ∧
      (p.1 : Int) < retryMax ∧
      p.2 = drainBody (((env.attemptResp p.1).map Response.bodyLen).getD 0)) ∧
    (((Do env retryMax).exit = .checkStop ∨ (Do env retryMax).exit = .exhausted) →
      (Do env retryMax).respDrained = false) ∧
    ((Do env retryMax).exit = .deadlineShort →
      (Do env retryMax).respDrained =
        ((Do env retryMax).err.isNone && (Do env retryMax).resp.isSome)) := by
  have h := doLoop_drain_spec env retryMax.toNat retryMax.toNat 0 0 0 []
    (by omega) (by intro p hp; simp at hp)
  refine ⟨?_, h.2.1, h.2.2⟩
  intro p hp
  have hk := h.1 p hp
  exact ⟨hk.1, hk.2.1, hk.2.2.1, by have := hk.2.2.2.1; omega, hk.2.2.2.2⟩

/-- Witness for C10: a deadline short-circuit after a successful attempt
returns a response whose body the engine had already drained (4096 of its
10000 bytes) and closed. -/
theorem Do_drain_policy_witness :
    (Do c10WitnessEnv 3).respDrained =
      ((Do c10WitnessEnv 3).err.isNone && (Do c10WitnessEnv 3).resp.isSome) ∧
    (Do c10WitnessEnv 3).respDrained = true ∧
    (Do c10WitnessEnv 3).drained = [(0, 4096)] := by
  exact ⟨(Do_drain_policy c10WitnessEnv 3).2.2 (by decide), by decide, by decide⟩

/-- Counterexample to C10 as stated: on the deadline short-circuit path the
returned response's body is NOT always drained — here the attempt returned
a non-nil response alongside a non-nil error, the engine skipped the drain
(`err == nil && resp != nil` fails), and the deadline path handed the
response back untouched. -/
theorem Do_drain_deadline_counterexample :
    (Do c10CexEnv 3).exit = .deadlineShort ∧
    (Do c10CexEnv 3).resp.isSome = true ∧
    (Do c10CexEnv 3).respDrained = false ∧
    (Do c10CexEnv 3).drained = [] := by
  decide

/-! ## Theorems about `ExponentialBackoff` -/

lemma bitsFuel_zero (f : Nat) : bitsFuel f 0 = 0 := by
  cases f <;> rfl

lemma bitsFuel_stable :
    ∀ (n f g : Nat), n ≤ f → n ≤ g → bitsFuel f n = bitsFuel g n := by
  intro n
  induction n using Nat.strong_induction_on with
  | _ n ih =>
    intro f g hf hg
    match n, f, g with
    | 0, f, g => rw [bitsFuel_zero, bitsFuel_zero]
    | n + 1, f + 1, g + 1 =>
      have hdiv : (n + 1) / 2 < n + 1 := Nat.div_lt_self (Nat.succ_pos n) (by omega)
      show bitsFuel f ((n + 1) / 2) + 1 = bitsFuel g ((n + 1) / 2) + 1
      rw [ih ((n + 1) / 2) hdiv f g (by omega) (by omega)]

lemma bits_succ (n : Nat) : bits (n + 1) = bits ((n + 1) / 2) + 1 := by
  show bitsFuel n ((n + 1) / 2) + 1 = bits ((n + 1) / 2) + 1
  rw [bitsFuel_stable ((n + 1) / 2) n ((n + 1) / 2)
    (Nat.le_of_lt_succ (Nat.div_lt_self (Nat.succ_pos n) (by omega)))
    (Nat.le_refl _)]
  rfl

lemma bits_char : ∀ n : Nat, 1 ≤ n → 2 ^ (bits n - 1) ≤ n ∧ n < 2 ^ bits n := by
  intro n
  induction n using Nat.strong_induction_on with
  | _ n ih =>
    intro hn
    rcases Nat.lt_or_ge n 2 with h2 | h2
    · have h1 : n = 1 := by omega
      subst h1
      exact ⟨by simp [bits, bitsFuel], by simp [bits, bitsFuel]⟩
    · obtain ⟨m, rfl⟩ : ∃ m, n = m + 1 := ⟨n - 1, by omega⟩
      rw [bits_succ m]
      set d := (m + 1) / 2 with hd
      have hdiv : d < m + 1 := Nat.div_lt_self (by omega) (by omega)
      have hdp : 1 ≤ d := by omega
      obtain ⟨hdl, hdu⟩ := ih d hdiv hdp
      have hb1 : 1 ≤ bits d := by
        by_contra h
        have h0 : bits d = 0 := by omega
        rw [h0] at hdu
        omega
      have hmod : m + 1 = 2 * d + (m + 1) % 2 := (Nat.div_add_mod _ 2).symm
      have hm2 : (m + 1) % 2 < 2 := Nat.mod_lt _ (by omega)
      constructor
      · have e1 : 2 ^ (bits d + 1 - 1) = 2 ^ (bits d - 1) * 2 := by
          rw [← pow_succ]
          congr 1
          omega
        rw [e1]
        omega
      · have e2 : 2 ^ (bits d + 1) = 2 ^ bits d * 2 := pow_succ 2 _
        rw [e2]
        omega

lemma bits_lt (n : Nat) : n < 2 ^ bits n := by
  cases n with
  | zero => simp [bits, bitsFuel_zero]
  | succ m => exact (bits_char (m + 1) (by omega)).2

lemma bits_le (n : Nat) (hn : 1 ≤ n) : 2 ^ (bits n - 1) ≤ n :=
  (bits_char n hn).1

lemma bits_ge_of_lt (n k : Nat) (h : 2 ^ k ≤ n) : k + 1 ≤ bits n := by
  by_contra hc
  have hb : bits n ≤ k := by omega
  have := bits_lt n
  have : n < 2 ^ k := lt_of_lt_of_le this (Nat.pow_le_pow_right (by omega) hb)
  omega

lemma rndAt_dvd (s n : Nat) : 2 ^ s ∣ rndAt s n := by
  unfold rndAt
  split_ifs <;> exact dvd_mul_left _ _

lemma rndAt_le (s n : Nat) (hs : 1 ≤ s) : rndAt s n ≤ n + 2 ^ (s - 1) := by
  have hA : n / 2 ^ s * 2 ^ s + n % 2 ^ s = n := Nat.div_add_mod' n (2 ^ s)
  have hr : n % 2 ^ s < 2 ^ s := Nat.mod_lt _ (pow_pos (by omega) s)
  have h2s : (2 : Nat) ^ s = 2 ^ (s - 1) * 2 := by
    rw [← pow_succ]
    congr 1
    omega
  unfold rndAt
  simp only [Nat.succ_mul]
  split_ifs <;> omega

lemma rndAt_ge (s n : Nat) (hs : 1 ≤ s) : n ≤ rndAt s n + 2 ^ (s - 1) := by
  have hA : n / 2 ^ s * 2 ^ s + n % 2 ^ s = n := Nat.div_add_mod' n (2 ^ s)
  have hr : n % 2 ^ s < 2 ^ s := Nat.mod_lt _ (pow_pos (by omega) s)
  have h2s : (2 : Nat) ^ s = 2 ^ (s - 1) * 2 := by
    rw [← pow_succ]
    congr 1
    omega
  unfold rndAt
  simp only [Nat.succ_mul]
  split_ifs <;> omega

lemma rndAt_quot_le (s n : Nat) : rndAt s n ≤ (n / 2 ^ s + 1) * 2 ^ s := by
  unfold rndAt
  simp only [Nat.succ_mul]
  split_ifs <;> omega

lemma rndAt_of_dvd (s n : Nat) (_hs : 1 ≤ s) (h : 2 ^ s ∣ n) : rndAt s n = n := by
  have hb : n % 2 ^ s = 0 := Nat.mod_eq_zero_of_dvd h
  unfold rndAt
  simp only [hb]
  rw [if_pos (pow_pos (by omega : (0 : Nat) < 2) (s - 1))]
  exact Nat.div_mul_cancel h

lemma rnd53_frame (n : Nat) (h : 2 ^ 53 < n) :
    1 ≤ bits n - 53 ∧ 2 ^ (bits n - 53 + 52) ≤ n ∧ n < 2 ^ (bits n - 53 + 53) := by
  have hb : 54 ≤ bits n := bits_ge_of_lt n 53 (by omega)
  refine ⟨by omega, ?_, ?_⟩
  · have h1 := bits_le n (by omega)
    have he : bits n - 1 = bits n - 53 + 52 := by omega
    rwa [he] at h1
  · have h1 := bits_lt n
    rw [show bits n - 53 + 53 = bits n from by omega]
    exact h1

lemma rep_rnd53 (n : Nat) : Rep (rnd53 n) := by
  unfold rnd53
  split_ifs with h
  · exact ⟨n, 0, h, by ring⟩
  · push_neg at h
    obtain ⟨hs1, hlow, hub⟩ := rnd53_frame n h
    set s := bits n - 53
    have hqlt : n / 2 ^ s < 2 ^ 53 := by
      rw [Nat.div_lt_iff_lt_mul (pow_pos (by omega) s)]
      calc n < 2 ^ (s + 53) := hub
        _ = 2 ^ 53 * 2 ^ s := by rw [pow_add]; ring
    have hd := rndAt_dvd s n
    refine ⟨rndAt s n / 2 ^ s, s, ?_, (Nat.div_mul_cancel hd).symm⟩
    have hle := rndAt_quot_le s n
    have h1 := Nat.div_le_div_right (c := 2 ^ s) hle
    rw [Nat.mul_div_cancel _ (pow_pos (by omega) s)] at h1
    omega

lemma rnd53_of_rep (n : Nat) (h : Rep n) : rnd53 n = n := by
  unfold rnd53
  split_ifs with hle
  · rfl
  · push_neg at hle
    obtain ⟨hs1, hlow, hub⟩ := rnd53_frame n hle
    obtain ⟨c, k, hc, hn⟩ := h
    set s := bits n - 53 with hs
    have hcpos : 1 ≤ c := by
      rcases Nat.eq_zero_or_pos c with h0 | h0
      · subst h0
        simp at hn
        omega
      · exact h0
    have hup : n ≤ 2 ^ (53 + k) := by
      rw [hn, pow_add]
      exact Nat.mul_le_mul_right _ hc
    have hsk : s ≤ k + 1 := by
      by_contra hcon
      push_neg at hcon
      have hA : 2 ^ (k + 54) ≤ 2 ^ (s + 52) := Nat.pow_le_pow_right (by omega) (by omega)
      have hB : 2 ^ (53 + k) < 2 ^ (k + 54) := Nat.pow_lt_pow_right (by omega) (by omega)
      omega
    have hdvd : 2 ^ s ∣ n := by
      rcases Nat.lt_or_ge s (k + 1) with hsle | hseq
      · rw [hn]
        exact Dvd.dvd.mul_left (pow_dvd_pow 2 (by omega)) c
      · have hseq1 : s = k + 1 := by omega
        have hceven : 2 ∣ c := by
          by_contra hodd
          have hc53 : 2 ^ 53 ≤ c := by
            have h1 : (2 : Nat) ^ 53 * 2 ^ k ≤ c * 2 ^ k := by
              have he : (2 : Nat) ^ (s + 52) = 2 ^ 53 * 2 ^ k := by
                rw [← pow_add]
                congr 1
                omega
              rw [← he, ← hn]
              exact hlow
            exact Nat.le_of_mul_le_mul_right h1 (pow_pos (by omega) k)
          have hce : c = 2 ^ 53 := le_antisymm hc hc53
          rw [hce] at hodd
          exact hodd (dvd_pow_self 2 (by omega))
        obtain ⟨c2, hc2⟩ := hceven
        rw [hn, hc2, hseq1]
        have he : 2 * c2 * 2 ^ k = c2 * 2 ^ (k + 1) := by ring
        rw [he]
        exact Dvd.dvd.mul_left dvd_rfl c2
    exact rndAt_of_dvd s n hs1 hdvd

lemma rnd53_pos (n : Nat) (h : 1 ≤ n) : 1 ≤ rnd53 n := by
  unfold rnd53
  split_ifs with hle
  · omega
  · push_neg at hle
    obtain ⟨hs1, hlow, _⟩ := rnd53_frame n hle
    set s := bits n - 53 with hs
    have h1 := rndAt_ge s n hs1
    have hplt : 2 ^ (s - 1) < 2 ^ (s + 52) := Nat.pow_lt_pow_right (by omega) (by omega)
    omega

lemma rnd53_overflow (n a : Nat) (h : 2 ^ 63 ≤ n * 2 ^ a) :
    2 ^ 63 ≤ rnd53 n * 2 ^ a := by
  unfold rnd53
  split_ifs with hle
  · exact h
  · push_neg at hle
    obtain ⟨hs1, hlow, _⟩ := rnd53_frame n hle
    set s := bits n - 53 with hs
    have hdvd := rndAt_dvd s n
    have hge := rndAt_ge s n hs1
    rcases le_or_lt n (rndAt s n) with hnm | hnm
    · calc (2 : Nat) ^ 63 ≤ n * 2 ^ a := h
        _ ≤ rndAt s n * 2 ^ a := Nat.mul_le_mul_right _ hnm
    · rcases le_or_lt (s + a) 63 with hsa | hsa
      · have hd2 : 2 ^ (s + a) ∣ rndAt s n * 2 ^ a := by
          rw [pow_add]
          exact mul_dvd_mul hdvd dvd_rfl
        have hd63 : 2 ^ (s + a) ∣ 2 ^ 63 := pow_dvd_pow 2 hsa
        by_contra hc
        push_neg at hc
        have hdsub : 2 ^ (s + a) ∣ 2 ^ 63 - rndAt s n * 2 ^ a := Nat.dvd_sub' hd63 hd2
        have hpos : 0 < 2 ^ 63 - rndAt s n * 2 ^ a := by omega
        have hbig : 2 ^ (s + a) ≤ 2 ^ 63 - rndAt s n * 2 ^ a := Nat.le_of_dvd hpos hdsub
        have hup : n * 2 ^ a ≤ rndAt s n * 2 ^ a + 2 ^ (s - 1) * 2 ^ a := by
          calc n * 2 ^ a ≤ (rndAt s n + 2 ^ (s - 1)) * 2 ^ a := Nat.mul_le_mul_right _ hge
            _ = rndAt s n * 2 ^ a + 2 ^ (s - 1) * 2 ^ a := by ring
        have hpa : 2 ^ (s - 1) * 2 ^ a * 2 = 2 ^ (s + a) := by
          rw [← pow_add, ← pow_succ]
          congr 1
          omega
        have hSpos : 0 < 2 ^ (s + a) := pow_pos (by omega) _
        omega
      · have hm : 2 ^ (s + 51) ≤ rndAt s n := by
          have h1 : 2 ^ (s - 1) ≤ 2 ^ (s + 51) := Nat.pow_le_pow_right (by omega) (by omega)
          have h2 : (2 : Nat) ^ (s + 52) = 2 ^ (s + 51) * 2 := by
            rw [show s + 52 = s + 51 + 1 from by omega, pow_succ]
          omega
        calc (2 : Nat) ^ 63 ≤ 2 ^ (s + 51 + a) := Nat.pow_le_pow_right (by omega) (by omega)
          _ = 2 ^ (s + 51) * 2 ^ a := by rw [pow_add]
          _ ≤ rndAt s n * 2 ^ a := Nat.mul_le_mul_right _ hm

lemma rnd53Int_natCast (m : Nat) : rnd53Int (m : Int) = (rnd53 m : Int) := by
  unfold rnd53Int
  rw [if_pos (Int.natCast_nonneg m), Int.natAbs_ofNat]

lemma rnd53_pow63 : rnd53 (2 ^ 63) = 2 ^ 63 :=
  rnd53_of_rep _ ⟨2 ^ 53, 10, le_refl _, by norm_num⟩

lemma rnd53Int_neg_pow63 : rnd53Int (-(2 ^ 63)) = -(2 ^ 63) := by
  unfold rnd53Int
  rw [if_neg (by norm_num)]
  have h1 : ((-(2 ^ 63) : Int)).natAbs = 2 ^ 63 := by
    rw [Int.natAbs_neg, Int.natAbs_pow]
    rfl
  rw [h1, rnd53_pow63]
  norm_num

lemma ExponentialBackoff_char (mn mx : Int) (a : Nat) (h : 0 < mn) :
    ExponentialBackoff mn mx a =
      if rnd53 mn.natAbs * 2 ^ a < 2 ^ 63 then
        min ((rnd53 mn.natAbs : Int) * 2 ^ a) mx
      else mx := by
  have hRint : rnd53Int mn = (rnd53 mn.natAbs : Int) := by
    unfold rnd53Int
    rw [if_pos h.le]
  set R : Nat := rnd53 mn.natAbs with hR
  have hRpos : 1 ≤ R := rnd53_pos _ (Int.natAbs_pos.mpr (ne_of_gt h))
  have hcast : ((R : Int) * 2 ^ a) = ((R * 2 ^ a : Nat) : Int) := by push_cast; ring
  have habs : ((R : Int) * 2 ^ a).natAbs = R * 2 ^ a := by
    rw [hcast, Int.natAbs_ofNat]
  have h0R : (0 : Int) ≤ (R : Int) * 2 ^ a := by positivity
  have hRepM : Rep (R * 2 ^ a) := by
    obtain ⟨c, k, hc, hck⟩ := rep_rnd53 mn.natAbs
    refine ⟨c, k + a, hc, ?_⟩
    rw [hR, hck, pow_add]
    ring
  rcases lt_or_ge (R * 2 ^ a) (2 ^ 63) with hlt | hge
  · have ha63 : a < 63 := by
      have h1 : 2 ^ a ≤ R * 2 ^ a := by
        calc (2 : Nat) ^ a = 1 * 2 ^ a := (one_mul _).symm
          _ ≤ R * 2 ^ a := Nat.mul_le_mul_right _ hRpos
      have h2 : (2 : Nat) ^ a < 2 ^ 63 := lt_of_le_of_lt h1 hlt
      exact (Nat.pow_lt_pow_iff_right (by omega)).mp h2
    have hmult : goPowMult mn a = some ((R : Int) * 2 ^ a) := by
      simp only [goPowMult, hRint]
      rw [if_pos (by omega : a < 1024), if_pos]
      rw [habs]
      calc R * 2 ^ a < 2 ^ 63 := hlt
        _ < 2 ^ 1024 := by norm_num
    have hvrange : -(2 ^ 63) ≤ (R : Int) * 2 ^ a ∧ (R : Int) * 2 ^ a < 2 ^ 63 := by
      refine ⟨by omega, ?_⟩
      rw [hcast]
      exact_mod_cast hlt
    have hdur : goDurationOfFloat (goPowMult mn a) = (R : Int) * 2 ^ a := by
      rw [hmult]
      simp only [goDurationOfFloat]
      rw [if_pos hvrange]
    have hrnd : rnd53Int ((R : Int) * 2 ^ a) = (R : Int) * 2 ^ a := by
      rw [hcast, rnd53Int_natCast, rnd53_of_rep _ hRepM]
    simp only [ExponentialBackoff]
    rw [hdur, hmult, hrnd, if_pos hlt]
    rcases le_or_lt ((R : Int) * 2 ^ a) mx with hm | hm
    · rw [if_neg, min_eq_left hm]
      rintro (hc | hc)
      · exact hc rfl
      · omega
    · rw [if_pos (Or.inr hm), min_eq_right hm.le]
  · have hsleep : goDurationOfFloat (goPowMult mn a) = -(2 ^ 63) := by
      simp only [goPowMult, hRint]
      split_ifs with h1 h2
      · simp only [goDurationOfFloat]
        rw [if_neg]
        intro hcon
        rw [hcast] at hcon
        have hc2 := hcon.2
        have : (R * 2 ^ a : Nat) < 2 ^ 63 := by exact_mod_cast hc2
        omega
      · simp only [goDurationOfFloat]
      · simp only [goDurationOfFloat]
    have hneq : some (rnd53Int (goDurationOfFloat (goPowMult mn a))) ≠ goPowMult mn a := by
      rw [hsleep, rnd53Int_neg_pow63]
      simp only [goPowMult, hRint]
      split_ifs with h1 h2
      · intro hcon
        injection hcon with hv
        omega
      · simp
      · simp
    simp only [ExponentialBackoff]
    rw [if_neg (not_lt.mpr hge), if_pos (Or.inl hneq)]

/-- Claim C5: for `ExponentialBackoff(min, max)` with `0 < min <= max`:
the backoff never exceeds `max`; it is monotone in the attempt number (in
particular below the saturation point); when `min * 2^attempt` overflows the
`int64` duration range the result clamps to `max` instead of wrapping; and
in the exactly-representable regime (`min <= 2^53`, no overflow) the result
is precisely `min * 2^attempt` capped at `max`. -/
theorem ExponentialBackoff_spec (mn mx : Int) (h1 : 0 < mn) (_h2 : mn ≤ mx) :
    (∀ a, ExponentialBackoff mn mx a ≤ mx) ∧
    (∀ a1 a2, a1 < a2 → ExponentialBackoff mn mx a1 ≤ ExponentialBackoff mn mx a2) ∧
    (∀ a, (2 : Int) ^ 63 ≤ mn * 2 ^ a → ExponentialBackoff mn mx a = mx) ∧
    (∀ a, mn ≤ 2 ^ 53 → mn * 2 ^ a < 2 ^ 63 →
      ExponentialBackoff mn mx a = min (mn * 2 ^ a) mx) := by
  have hmn : ((mn.natAbs : Nat) : Int) = mn := Int.natAbs_of_nonneg h1.le
  refine ⟨?_, ?_, ?_, ?_⟩
  · intro a
    rw [ExponentialBackoff_char mn mx a h1]
    split_ifs
    · exact min_le_right _ _
    · exact le_refl mx
  · intro a1 a2 ha
    rw [ExponentialBackoff_char mn mx a1 h1, ExponentialBackoff_char mn mx a2 h1]
    have hmono : rnd53 mn.natAbs * 2 ^ a1 ≤ rnd53 mn.natAbs * 2 ^ a2 :=
      Nat.mul_le_mul_left _ (Nat.pow_le_pow_right (by omega) ha.le)
    have hmonoZ : ((rnd53 mn.natAbs : Int)) * 2 ^ a1 ≤ (rnd53 mn.natAbs : Int) * 2 ^ a2 := by
      have := hmono
      push_cast at this ⊢
      exact_mod_cast this
    rcases lt_or_ge (rnd53 mn.natAbs * 2 ^ a2) (2 ^ 63) with hM2 | hM2
    · rw [if_pos (lt_of_le_of_lt hmono hM2), if_pos hM2]
      exact min_le_min hmonoZ (le_refl mx)
    · rw [if_neg (not_lt.mpr hM2)]
      split_ifs
      · exact min_le_right _ _
      · exact le_refl mx
  · intro a ha
    rw [ExponentialBackoff_char mn mx a h1]
    have haN : 2 ^ 63 ≤ mn.natAbs * 2 ^ a := by
      have h' : ((2 ^ 63 : Nat) : Int) ≤ ((mn.natAbs * 2 ^ a : Nat) : Int) := by
        push_cast
        rw [abs_of_pos h1]
        omega
      exact_mod_cast h'
    have hov := rnd53_overflow mn.natAbs a haN
    rw [if_neg (not_lt.mpr hov)]
  · intro a hsm hlt
    have hnat : mn.natAbs ≤ 2 ^ 53 := by
      have : ((mn.natAbs : Nat) : Int) ≤ ((2 ^ 53 : Nat) : Int) := by
        rw [hmn]
        push_cast
        exact hsm
      exact_mod_cast this
    have hReq : rnd53 mn.natAbs = mn.natAbs := by
      unfold rnd53
      rw [if_pos hnat]
    have hltN : mn.natAbs * 2 ^ a < 2 ^ 63 := by
      have h' : ((mn.natAbs * 2 ^ a : Nat) : Int) < ((2 ^ 63 : Nat) : Int) := by
        push_cast
        rw [abs_of_pos h1]
        omega
      exact_mod_cast h'
    rw [ExponentialBackoff_char mn mx a h1, hReq, if_pos hltN, hmn]

set_option maxRecDepth 4096 in
/-- Witness for C5 at `min` = 100ns, `max` = 30s, attempt 3. -/
theorem ExponentialBackoff_spec_witness :
    (0 : Int) < 100 ∧ (100 : Int) ≤ 30000000000 ∧
    ExponentialBackoff 100 30000000000 3 ≤ 30000000000 ∧
    ExponentialBackoff 100 30000000000 3 = min ((100 : Int) * 2 ^ 3) 30000000000 ∧
    ExponentialBackoff 100 30000000000 3 = 800 := by
  refine ⟨by decide, by decide,
    (ExponentialBackoff_spec 100 30000000000 (by decide) (by decide)).1 3,
    (ExponentialBackoff_spec 100 30000000000 (by decide) (by decide)).2.2.2 3
      (by decide) (by decide), ?_⟩
  decide

end GoCore
